import Mathlib

/-!
Shallow embedding of the solana trading bot's core pipeline, and proofs of the
specification's claims about it.

The embedding covers:
* the pool-delta trade classifier and the per-trade contrarian engine
  (`src/trading_dev/contrarian/detectlast.ts`);
* the retry wrapper with exponential backoff (`fetchWithRetry` /
  `exponentialBackoff` in the order watcher);
* the batch aggregator / market maker step (`market_maker.ts`: `watchTradeFile`
  and `executeTrade`);
* the CSV trade-ledger writer (`writeTradestoCSV` in the order watcher).

Numbers that are JavaScript floats in the source are modelled as rationals
(`ℚ`); timestamps are integers (milliseconds); strings are Lean `String`s,
except in the CSV module where file contents are modelled as `List Char` so
that splitting and joining can be reasoned about directly.
-/

/-! ### Pool-delta classifier (`detectlast.ts`) -/

/-- Trade direction. In the source this is the string union `'buy' | 'sell'`. -/
inductive Side where
  | buy
  | sell
deriving DecidableEq, Repr

/-- Nested amount record, mirroring `uiTokenAmount` on a token balance entry. -/
structure UiTokenAmount where
  uiAmount : ℚ
deriving DecidableEq, Repr

/-- One entry of `preTokenBalances` / `postTokenBalances`. -/
structure TokenBalanceEntry where
  owner : String
  mint : String
  uiTokenAmount : UiTokenAmount
deriving DecidableEq, Repr

def WSOL_ADDRESS : String := "So11111111111111111111111111111111111111112"

def RAYDIUM_AUTHORITY : String := "5Q544fKrFoe6tsEbD7S8FxcJPMeVpkEgPWjCzGw3ZNzo"

/-- The scanning loop of `detectLatestTrade`: iterate over the balance list,
breaking at the top of an iteration once both the pool SOL and pool token
amounts are nonzero, otherwise overwriting the matching accumulator with the
current entry's amount. -/
def scanGo (targetTokenMint : String) :
    List TokenBalanceEntry → ℚ → ℚ → ℚ × ℚ
  | [], poolSOL, poolToken => (poolSOL, poolToken)
  | account :: rest, poolSOL, poolToken =>
    if poolSOL ≠ 0 ∧ poolToken ≠ 0 then (poolSOL, poolToken)
    else
      scanGo targetTokenMint rest
        (if account.owner = RAYDIUM_AUTHORITY ∧ account.mint = WSOL_ADDRESS then
          account.uiTokenAmount.uiAmount
        else poolSOL)
        (if account.owner = RAYDIUM_AUTHORITY ∧ account.mint = targetTokenMint then
          account.uiTokenAmount.uiAmount
        else poolToken)

/-- One scan of a balance list, starting from `(0, 0)` as in the source. -/
def scanPoolBalances (balances : List TokenBalanceEntry) (targetTokenMint : String) : ℚ × ℚ :=
  scanGo targetTokenMint balances 0 0

/-- Result of `detectLatestTrade`: `side` is `none` for the `null` side. -/
structure DetectResult where
  side : Option Side
  swappedSOLAmount : ℚ
deriving DecidableEq, Repr

/-- The pool-delta classifier `detectLatestTrade`: scan pre and post balance
lists for the pool authority's WSOL and target-token amounts, then decide the
side from the WSOL delta alone. -/
def detectLatestTrade (preTokenBalances postTokenBalances : List TokenBalanceEntry)
    (targetTokenMint : String) : DetectResult :=
  let prePool := scanPoolBalances preTokenBalances targetTokenMint
  let postPool := scanPoolBalances postTokenBalances targetTokenMint
  if postPool.1 > prePool.1 then ⟨some Side.buy, postPool.1 - prePool.1⟩
  else if postPool.1 < prePool.1 then ⟨some Side.sell, prePool.1 - postPool.1⟩
  else ⟨none, 0⟩

/-! ### Per-trade contrarian engine (`handleTradeDetection`) -/

/-- Per-token trade state, mirroring the `TradeState` interface. -/
structure TradeState where
  lastTradeDirection : Option Side
  lastTradeSizeInSOL : ℚ
  lastTradeTimestamp : ℤ
deriving DecidableEq, Repr

def OPPOSITE_TRADE_PERCENTAGE : ℚ := 1 / 10

/-- The direction of the counter-order placed for a detected direction. -/
def oppositeOf : Side → Side
  | Side.buy => Side.sell
  | Side.sell => Side.buy

/-- One invocation of `handleTradeDetection`. The global `tradeStates` map is
passed in and the updated map is returned; the first component is the order
placed (direction and size in SOL), `none` when no order is placed. -/
def handleTradeDetection (tradeStates : String → Option TradeState) (tokenAddress : String)
    (currentTimestamp : ℤ) (tradeResult : DetectResult) :
    Option (Side × ℚ) × (String → Option TradeState) :=
  let lastState := tradeStates tokenAddress
  match tradeResult.side with
  | none => (none, tradeStates)
  | some tradeDirection =>
    let proceed : Bool :=
      match lastState with
      | none => true
      | some s => decide (currentTimestamp - s.lastTradeTimestamp > 1000)
    if proceed then
      let oppositeSizeInSOL := tradeResult.swappedSOLAmount * OPPOSITE_TRADE_PERCENTAGE
      (some (oppositeOf tradeDirection, oppositeSizeInSOL),
        fun t =>
          if t = tokenAddress then
            some ⟨some tradeDirection, oppositeSizeInSOL, currentTimestamp⟩
          else tradeStates t)
    else (none, tradeStates)

/-- Helper for the overwrite analysis: when every entry of the list is a pool
native-currency entry (owner is the pool authority, mint is WSOL) and the
target mint differs from WSOL, the scan never finds the token amount, never
breaks, and thus takes the LAST entry's amount as the pool SOL amount,
whatever the accumulator started at. -/
lemma scanGo_all_native (mint : String) (hmint : mint ≠ WSOL_ADDRESS) :
    ∀ (l : List TokenBalanceEntry) (hne : l ≠ []) (poolSOL : ℚ),
      (∀ a ∈ l, a.owner = RAYDIUM_AUTHORITY ∧ a.mint = WSOL_ADDRESS) →
      scanGo mint l poolSOL 0 = ((l.getLast hne).uiTokenAmount.uiAmount, 0) := by
  intro l
  induction l with
  | nil => intro hne; exact absurd rfl hne
  | cons a rest ih =>
    intro hne poolSOL hall
    have ha := hall a (List.mem_cons_self a rest)
    have hstep :
        scanGo mint (a :: rest) poolSOL 0 =
          scanGo mint rest a.uiTokenAmount.uiAmount 0 := by
      have hwm : ¬(WSOL_ADDRESS = mint) := fun hc => hmint hc.symm
      simp [scanGo, ha.1, ha.2, hwm]
    rw [hstep]
    cases rest with
    | nil => simp [scanGo]
    | cons b tail =>
      rw [ih (List.cons_ne_nil b tail) a.uiTokenAmount.uiAmount
        (fun x hx => hall x (List.mem_cons_of_mem a hx))]
      rw [List.getLast_cons (List.cons_ne_nil b tail)]

/-- C2 counterexample: two pool-authority WSOL entries with amounts 5 then 7,
and no token entry anywhere. The break never fires (the token amount stays 0),
so the second duplicate overwrites the first: the scan yields 7, not the first
match 5. With a post list holding 6, the classifier reports a sell of 1
(6 < 7), whereas first-match-wins would report a buy of 1 (6 > 5). -/
theorem scanPoolBalances_first_match_counterexample :
    scanPoolBalances
        [⟨RAYDIUM_AUTHORITY, WSOL_ADDRESS, ⟨5⟩⟩, ⟨RAYDIUM_AUTHORITY, WSOL_ADDRESS, ⟨7⟩⟩]
        "TOKEN_MINT" = (7, 0) ∧
    detectLatestTrade
        [⟨RAYDIUM_AUTHORITY, WSOL_ADDRESS, ⟨5⟩⟩, ⟨RAYDIUM_AUTHORITY, WSOL_ADDRESS, ⟨7⟩⟩]
        [⟨RAYDIUM_AUTHORITY, WSOL_ADDRESS, ⟨6⟩⟩] "TOKEN_MINT" = ⟨some Side.sell, 1⟩ ∧
    (7 : ℚ) ≠ 5 := by
  refine ⟨?_, ?_, by norm_num⟩ <;>
    · simp [detectLatestTrade, scanPoolBalances, scanGo, WSOL_ADDRESS, RAYDIUM_AUTHORITY]
      try norm_num

/-- C2 (amended): each scan does stop early — once both accumulated amounts
are nonzero the remaining entries are ignored — but among duplicate
owner/mint pairs it is the LAST matching entry seen before both amounts
become nonzero whose value is taken, not the first: while the other
quantity is still unfound (zero), a later duplicate overwrites an earlier
one. In particular, on a list consisting solely of pool-authority
native-currency entries, the scan returns the last entry's amount. -/
theorem scanPoolBalances_overwrite :
    (∀ (mint : String) (l : List TokenBalanceEntry) (poolSOL poolToken : ℚ),
      poolSOL ≠ 0 → poolToken ≠ 0 →
      scanGo mint l poolSOL poolToken = (poolSOL, poolToken)) ∧
    (∀ (mint : String) (l : List TokenBalanceEntry) (hne : l ≠ []),
      mint ≠ WSOL_ADDRESS →
      (∀ a ∈ l, a.owner = RAYDIUM_AUTHORITY ∧ a.mint = WSOL_ADDRESS) →
      scanPoolBalances l mint = ((l.getLast hne).uiTokenAmount.uiAmount, 0)) := by
  constructor
  · intro mint l poolSOL poolToken h1 h2
    cases l with
    | nil => rfl
    | cons a rest => simp [scanGo, h1, h2]
  · intro mint l hne hmint hall
    exact scanGo_all_native mint hmint l hne 0 hall

theorem scanPoolBalances_overwrite_witness :
    scanGo "M" ([⟨"X", "Y", ⟨9⟩⟩] : List TokenBalanceEntry) 2 3 = (2, 3) ∧
    scanPoolBalances
        ([⟨RAYDIUM_AUTHORITY, WSOL_ADDRESS, ⟨5⟩⟩, ⟨RAYDIUM_AUTHORITY, WSOL_ADDRESS, ⟨7⟩⟩] :
          List TokenBalanceEntry) "M" =
      ((([⟨RAYDIUM_AUTHORITY, WSOL_ADDRESS, ⟨5⟩⟩, ⟨RAYDIUM_AUTHORITY, WSOL_ADDRESS, ⟨7⟩⟩] :
          List TokenBalanceEntry).getLast (by simp)).uiTokenAmount.uiAmount, 0) := by
  constructor
  · exact scanPoolBalances_overwrite.1 "M"
      ([⟨"X", "Y", ⟨9⟩⟩] : List TokenBalanceEntry) 2 3 (by norm_num) (by norm_num)
  · exact scanPoolBalances_overwrite.2 "M"
      ([⟨RAYDIUM_AUTHORITY, WSOL_ADDRESS, ⟨5⟩⟩, ⟨RAYDIUM_AUTHORITY, WSOL_ADDRESS, ⟨7⟩⟩] :
        List TokenBalanceEntry) (by simp) (by decide) (by decide)

/-- C5: the pool-delta classifier decides purely from the scanned pool
native-currency amounts: a positive delta gives a buy of that delta, a
negative delta a sell, equality gives side none with magnitude 0 — for any
balance lists, hence regardless of token-amount deltas. The two concrete
cases are the fixtures of `test-detect-trade.ts`: pre pool SOL 100 and post
101 (token 1000 → 990) gives {buy, 1}; pre 100 and post 99 (token
1000 → 1010) gives {sell, 1}. -/
theorem detectLatestTrade_decision :
    (∀ (pre post : List TokenBalanceEntry) (mint : String),
      ((scanPoolBalances post mint).1 > (scanPoolBalances pre mint).1 →
        detectLatestTrade pre post mint =
          ⟨some Side.buy, (scanPoolBalances post mint).1 - (scanPoolBalances pre mint).1⟩) ∧
      ((scanPoolBalances post mint).1 < (scanPoolBalances pre mint).1 →
        detectLatestTrade pre post mint =
          ⟨some Side.sell, (scanPoolBalances pre mint).1 - (scanPoolBalances post mint).1⟩) ∧
      ((scanPoolBalances post mint).1 = (scanPoolBalances pre mint).1 →
        detectLatestTrade pre post mint = ⟨none, 0⟩)) ∧
    detectLatestTrade
      [⟨RAYDIUM_AUTHORITY, WSOL_ADDRESS, ⟨100⟩⟩,
        ⟨RAYDIUM_AUTHORITY, "TEST_TOKEN_ADDRESS", ⟨1000⟩⟩]
      [⟨RAYDIUM_AUTHORITY, WSOL_ADDRESS, ⟨101⟩⟩,
        ⟨RAYDIUM_AUTHORITY, "TEST_TOKEN_ADDRESS", ⟨990⟩⟩]
      "TEST_TOKEN_ADDRESS" = ⟨some Side.buy, 1⟩ ∧
    detectLatestTrade
      [⟨RAYDIUM_AUTHORITY, WSOL_ADDRESS, ⟨100⟩⟩,
        ⟨RAYDIUM_AUTHORITY, "TEST_TOKEN_ADDRESS", ⟨1000⟩⟩]
      [⟨RAYDIUM_AUTHORITY, WSOL_ADDRESS, ⟨99⟩⟩,
        ⟨RAYDIUM_AUTHORITY, "TEST_TOKEN_ADDRESS", ⟨1010⟩⟩]
      "TEST_TOKEN_ADDRESS" = ⟨some Side.sell, 1⟩ := by
  refine ⟨fun pre post mint => ⟨?_, ?_, ?_⟩, ?_, ?_⟩
  · intro h
    simp only [detectLatestTrade]
    split_ifs <;> first | rfl | linarith
  · intro h
    simp only [detectLatestTrade]
    split_ifs <;> first | rfl | linarith
  · intro h
    simp only [detectLatestTrade]
    split_ifs <;> first | rfl | linarith
  · simp [detectLatestTrade, scanPoolBalances, scanGo, WSOL_ADDRESS, RAYDIUM_AUTHORITY]
    try norm_num
  · simp [detectLatestTrade, scanPoolBalances, scanGo, WSOL_ADDRESS, RAYDIUM_AUTHORITY]
    try norm_num

theorem detectLatestTrade_decision_witness :
    detectLatestTrade [] [⟨RAYDIUM_AUTHORITY, WSOL_ADDRESS, ⟨3⟩⟩] "MINT" =
      ⟨some Side.buy,
        (scanPoolBalances [⟨RAYDIUM_AUTHORITY, WSOL_ADDRESS, ⟨3⟩⟩] "MINT").1 -
          (scanPoolBalances ([] : List TokenBalanceEntry) "MINT").1⟩ :=
  (detectLatestTrade_decision.1 [] [⟨RAYDIUM_AUTHORITY, WSOL_ADDRESS, ⟨3⟩⟩] "MINT").1
    (by simp [scanPoolBalances, scanGo, WSOL_ADDRESS, RAYDIUM_AUTHORITY]; try norm_num)

/-- C1 counterexample: with no prior state, a detected buy of magnitude 10
does place a sell order of size 1 (= 10 × 0.10), but the stored trade state
records the DETECTED direction `buy`, not the placed decision's direction
`sell` as the claim states. -/
theorem handleTradeDetection_state_direction_counterexample :
    (handleTradeDetection (fun _ => none) "TOKEN" 0 ⟨some Side.buy, 10⟩).1 =
      some (Side.sell, 1) ∧
    (handleTradeDetection (fun _ => none) "TOKEN" 0 ⟨some Side.buy, 10⟩).2 "TOKEN" =
      some ⟨some Side.buy, 1, 0⟩ ∧
    Side.buy ≠ Side.sell := by
  refine ⟨?_, ?_, by decide⟩ <;>
    · simp [handleTradeDetection, oppositeOf, OPPOSITE_TRADE_PERCENTAGE]
      try norm_num

/-- C1 (amended): for a token with no prior trade state, a detected buy of
magnitude m places a sell order of size m × 0.10, and the token's trade
state is overwritten with the DETECTED direction (buy), the placed order's
size, and the current timestamp — so for a detected buy of magnitude 10 the
state becomes {direction: buy, size: 1}. -/
theorem handleTradeDetection_no_prior_state :
    ∀ (states : String → Option TradeState) (token : String) (now : ℤ) (m : ℚ),
      states token = none →
      handleTradeDetection states token now ⟨some Side.buy, m⟩ =
        (some (Side.sell, m * OPPOSITE_TRADE_PERCENTAGE),
          fun t =>
            if t = token then some ⟨some Side.buy, m * OPPOSITE_TRADE_PERCENTAGE, now⟩
            else states t) := by
  intro states token now m h
  simp [handleTradeDetection, h, oppositeOf]

theorem handleTradeDetection_no_prior_state_witness :
    handleTradeDetection (fun _ => none) "TOKEN" 0 ⟨some Side.buy, 10⟩ =
      (some (Side.sell, 10 * OPPOSITE_TRADE_PERCENTAGE),
        fun t =>
          if t = "TOKEN" then some ⟨some Side.buy, 10 * OPPOSITE_TRADE_PERCENTAGE, 0⟩
          else none) :=
  handleTradeDetection_no_prior_state (fun _ => none) "TOKEN" 0 10 rfl

/-- C6: when prior state exists for the token and now − lastTimestamp ≤ 1000,
the detection is suppressed: no order is placed and the state map is
unchanged. When the detection has a direction and either no prior state
exists or now − lastTimestamp > 1000, it is processed: the opposite-direction
order of size magnitude × 0.10 is placed. -/
theorem handleTradeDetection_cooldown :
    (∀ (states : String → Option TradeState) (token : String) (now : ℤ)
        (res : DetectResult) (s : TradeState),
      states token = some s → now - s.lastTradeTimestamp ≤ 1000 →
      handleTradeDetection states token now res = (none, states)) ∧
    (∀ (states : String → Option TradeState) (token : String) (now : ℤ)
        (res : DetectResult) (dir : Side),
      res.side = some dir →
      (states token = none ∨
        ∃ s, states token = some s ∧ now - s.lastTradeTimestamp > 1000) →
      (handleTradeDetection states token now res).1 =
        some (oppositeOf dir, res.swappedSOLAmount * OPPOSITE_TRADE_PERCENTAGE)) := by
  constructor
  · intro states token now res s hs hle
    cases hres : res.side with
    | none => simp [handleTradeDetection, hres]
    | some dir =>
      have hngt : ¬(now - s.lastTradeTimestamp > 1000) := by omega
      simp [handleTradeDetection, hres, hs, hngt]
  · intro states token now res dir hres hor
    cases hor with
    | inl hnone => simp [handleTradeDetection, hres, hnone]
    | inr hex =>
      obtain ⟨s, hs, hgt⟩ := hex
      simp [handleTradeDetection, hres, hs, hgt]

theorem handleTradeDetection_cooldown_witness :
    handleTradeDetection
        (fun t => if t = "TOK" then some ⟨some Side.buy, 1, 0⟩ else none) "TOK" 500
        ⟨some Side.buy, 10⟩ =
      (none, fun t => if t = "TOK" then some ⟨some Side.buy, 1, 0⟩ else none) ∧
    (handleTradeDetection
        (fun t => if t = "TOK" then some ⟨some Side.buy, 1, 0⟩ else none) "TOK" 1500
        ⟨some Side.buy, 10⟩).1 =
      some (oppositeOf Side.buy, 10 * OPPOSITE_TRADE_PERCENTAGE) := by
  constructor
  · exact handleTradeDetection_cooldown.1 _ "TOK" 500 _ ⟨some Side.buy, 1, 0⟩
      (by simp) (by norm_num)
  · exact handleTradeDetection_cooldown.2 _ "TOK" 1500 _ Side.buy rfl
      (Or.inr ⟨⟨some Side.buy, 1, 0⟩, by simp, by norm_num⟩)

/-! ### Retry wrapper (`fetchWithRetry` / `exponentialBackoff`, order watcher) -/

def BASE_DELAY : ℕ := 2000

def MAX_RETRIES : ℕ := 5

/-- Does the character list start with the characters `429`? -/
def startsWith429 : List Char → Bool
  | '4' :: '2' :: '9' :: _ => true
  | _ => false

/-- Containment test mirroring `rpcError.message?.includes('429')`. -/
def includes429 : List Char → Bool
  | [] => false
  | c :: rest => startsWith429 (c :: rest) || includes429 rest

/-- Classification of an error message as rate limiting. -/
def isRateLimitMessage (msg : String) : Bool := includes429 msg.data

/-- Outcome of `fetchWithRetry`: a returned value, an error rethrown to the
caller without retry, or the final `Failed after MAX_RETRIES retries while
context` error. -/
inductive FetchOutcome (α : Type) where
  | success (value : α)
  | rethrown (e : String)
  | exhausted (context : String)
deriving DecidableEq, Repr

/-- The retry loop of `fetchWithRetry`, one iteration per attempt index `i`.
The operation is modelled as a function from the attempt index to that
attempt's result. Alongside the outcome, the list of backoff delays slept
(each `exponentialBackoff` call waits `BASE_DELAY * 2 ^ retryCount`
milliseconds) is accumulated in chronological order. -/
def fetchGo (baseDelay maxRetries : ℕ) {α : Type} (operation : ℕ → Except String α)
    (context : String) (i : ℕ) (delays : List ℕ) : FetchOutcome α × List ℕ :=
  if h : i < maxRetries then
    match operation i with
    | Except.ok a => (FetchOutcome.success a, delays)
    | Except.error e =>
      if isRateLimitMessage e then
        fetchGo baseDelay maxRetries operation context (i + 1)
          (delays ++ [baseDelay * 2 ^ i])
      else (FetchOutcome.rethrown e, delays)
  else (FetchOutcome.exhausted context, delays)
termination_by maxRetries - i
decreasing_by omega

/-- The retry wrapper `fetchWithRetry`, starting at attempt 0 with no delays
slept yet. -/
def fetchWithRetry (baseDelay maxRetries : ℕ) {α : Type} (operation : ℕ → Except String α)
    (context : String) : FetchOutcome α × List ℕ :=
  fetchGo baseDelay maxRetries operation context 0 []

/-- An operation fails rate-limited at attempt `j`. -/
def rateLimitedAt {α : Type} (operation : ℕ → Except String α) (j : ℕ) : Prop :=
  ∃ e, operation j = Except.error e ∧ isRateLimitMessage e = true

/-- Helper: a run of `k` consecutive rate-limited failures starting at
attempt `i` advances the loop to attempt `i + k`, sleeping the backoff
delays for attempts `i, i+1, …, i+k−1` in order. -/
lemma fetchGo_rateLimited_run (baseDelay maxRetries : ℕ) {α : Type}
    (operation : ℕ → Except String α) (context : String) :
    ∀ (k i : ℕ) (delays : List ℕ),
      i + k ≤ maxRetries →
      (∀ j, j < k → rateLimitedAt operation (i + j)) →
      fetchGo baseDelay maxRetries operation context i delays =
        fetchGo baseDelay maxRetries operation context (i + k)
          (delays ++ (List.range k).map (fun j => baseDelay * 2 ^ (i + j))) := by
  intro k
  induction k with
  | zero => intro i delays hle hfail; simp
  | succ k ih =>
    intro i delays hle hfail
    obtain ⟨e, he, hrl⟩ := hfail 0 (Nat.succ_pos k)
    rw [Nat.add_zero] at he
    have hi : i < maxRetries := by omega
    rw [fetchGo, dif_pos hi, he]
    simp only [hrl, if_true]
    rw [ih (i + 1) (delays ++ [baseDelay * 2 ^ i]) (by omega)
      (fun j hj => by
        have := hfail (j + 1) (by omega)
        rwa [show i + 1 + j = i + (j + 1) by omega])]
    congr 1
    · omega
    · rw [List.append_assoc, List.range_succ_eq_map, List.map_cons, List.map_map]
      congr 1
      simp only [List.singleton_append, Nat.add_zero, List.cons.injEq, true_and]
      apply List.map_congr_left
      intro j hj
      simp only [Function.comp_apply]
      congr 1
      congr 1
      omega

/-- C3: the retry wrapper's contract. (1) If the operation fails rate-limited
on exactly the first k attempts and then succeeds, with maxAttempts > k, the
wrapper returns the operation's value after exactly the k backoff delays
baseDelay·2^0, …, baseDelay·2^(k−1), in order. (2) If after j rate-limited
failures an attempt fails with an error not classified as rate-limiting, that
error is rethrown at once with no further attempts or delays. (3) If every
attempt fails rate-limited, the wrapper returns the exhausted-retries failure
for the given context after exactly maxAttempts attempts (the code also
sleeps the backoff after the final failed attempt, so maxAttempts delays are
slept). -/
theorem fetchWithRetry_contract :
    (∀ (α : Type) (baseDelay maxRetries : ℕ) (operation : ℕ → Except String α)
        (context : String) (k : ℕ) (a : α),
      k < maxRetries →
      (∀ i, i < k → rateLimitedAt operation i) →
      operation k = Except.ok a →
      fetchWithRetry baseDelay maxRetries operation context =
        (FetchOutcome.success a, (List.range k).map (fun j => baseDelay * 2 ^ j))) ∧
    (∀ (α : Type) (baseDelay maxRetries : ℕ) (operation : ℕ → Except String α)
        (context : String) (k : ℕ) (e : String),
      k < maxRetries →
      (∀ i, i < k → rateLimitedAt operation i) →
      operation k = Except.error e →
      isRateLimitMessage e = false →
      fetchWithRetry baseDelay maxRetries operation context =
        (FetchOutcome.rethrown e, (List.range k).map (fun j => baseDelay * 2 ^ j))) ∧
    (∀ (α : Type) (baseDelay maxRetries : ℕ) (operation : ℕ → Except String α)
        (context : String),
      (∀ i, i < maxRetries → rateLimitedAt operation i) →
      fetchWithRetry baseDelay maxRetries operation context =
        (FetchOutcome.exhausted context,
          (List.range maxRetries).map (fun j => baseDelay * 2 ^ j))) := by
  refine ⟨?_, ?_, ?_⟩
  · intro α baseDelay maxRetries operation context k a hk hfail hok
    rw [fetchWithRetry,
      fetchGo_rateLimited_run baseDelay maxRetries operation context k 0 [] (by omega)
        (fun j hj => by simpa using hfail j hj)]
    rw [fetchGo, dif_pos (by omega : 0 + k < maxRetries)]
    rw [show 0 + k = k by omega, hok]
    simp
  · intro α baseDelay maxRetries operation context k e hk hfail herr hnot
    rw [fetchWithRetry,
      fetchGo_rateLimited_run baseDelay maxRetries operation context k 0 [] (by omega)
        (fun j hj => by simpa using hfail j hj)]
    rw [fetchGo, dif_pos (by omega : 0 + k < maxRetries)]
    rw [show 0 + k = k by omega, herr]
    simp [hnot]
  · intro α baseDelay maxRetries operation context hfail
    rw [fetchWithRetry,
      fetchGo_rateLimited_run baseDelay maxRetries operation context maxRetries 0 []
        (by omega) (fun j hj => by simpa using hfail j hj)]
    rw [fetchGo, dif_neg (by omega : ¬(0 + maxRetries < maxRetries))]
    simp

theorem fetchWithRetry_contract_witness :
    fetchWithRetry 2000 5
        (fun i => if i < 2 then Except.error "HTTP 429 Too Many Requests" else Except.ok 7)
        "fetching signatures" =
      (FetchOutcome.success 7, (List.range 2).map (fun j => 2000 * 2 ^ j)) :=
  fetchWithRetry_contract.1 ℕ 2000 5
    (fun i => if i < 2 then Except.error "HTTP 429 Too Many Requests" else Except.ok 7)
    "fetching signatures" 2 7 (by omega)
    (fun i hi => ⟨"HTTP 429 Too Many Requests", by simp [hi], by decide⟩)
    (by simp)

/-! ### Batch aggregator / market maker (`market_maker.ts`) -/

/-- A parsed ledger row as consumed by `watchTradeFile`: the `solAmount`
column has been parsed to a number, the other columns remain strings. -/
structure WatchedTrade where
  timestamp : String
  type : String
  solAmount : ℚ
  tokenAmount : String
  txHash : String
deriving DecidableEq, Repr

def DEFAULT_WATCHED_TRADE : WatchedTrade := ⟨"", "", 0, "", ""⟩

/-- The trailing window `trades.slice(-5)`. -/
def lastFiveOf (trades : List WatchedTrade) : List WatchedTrade :=
  trades.drop (trades.length - 5)

/-- The batch identifier built from the window's first and fifth records:
both timestamps and the first 8 characters of both transaction hashes,
joined with dashes. -/
def mkBatchId (first fifth : WatchedTrade) : String :=
  first.timestamp ++ "-" ++ fifth.timestamp ++ "-" ++
    first.txHash.take 8 ++ "-" ++ fifth.txHash.take 8

/-- The batch identifier of a window, indexing records 0 and 4 as the
source does on the (length-5) window. -/
def batchIdOf (lastFiveTrades : List WatchedTrade) : String :=
  mkBatchId (lastFiveTrades.getD 0 DEFAULT_WATCHED_TRADE)
    (lastFiveTrades.getD 4 DEFAULT_WATCHED_TRADE)

/-- Net volume of a window as the code computes it: a running sum where a
record whose type is exactly `SELL` contributes `−solAmount` and any other
record contributes `+solAmount`. -/
def netVolume (trades : List WatchedTrade) : ℚ :=
  trades.foldl
    (fun acc trade =>
      acc + (if trade.type = "SELL" then -trade.solAmount else trade.solAmount)) 0

/-- Stated from the claim's words, for comparison with `netVolume`: the sum
of `+solAmount` for buys and `−solAmount` for sells. -/
def netVolumeClaim (trades : List WatchedTrade) : ℚ :=
  (trades.map
    (fun trade => if trade.type = "BUY" then trade.solAmount else -trade.solAmount)).sum

/-- The counter-order request the aggregator issues (argumentwise the call
`executeTrade(isBuy, amount)`), or no action. -/
inductive TradeCall where
  | none
  | exec (isBuy : Bool) (amount : ℚ)
deriving DecidableEq, Repr

/-- End-of-step update of the seen set: append the batch id (the JS `Set`
preserves insertion order and the id is known fresh), then, if the size
exceeds 100, keep only the trailing 50 identities. -/
def recordBatch (processedBatches : List String) (batchId : String) : List String :=
  let updated := processedBatches ++ [batchId]
  if updated.length > 100 then updated.drop (updated.length - 50) else updated

/-- One pass of `watchTradeFile` over an already-parsed trade list: take the
trailing window of 5, wait if fewer than 5 records exist, skip if the window
identity was already processed, otherwise derive the counter-order from the
net volume and record the identity. -/
def watchStep (trades : List WatchedTrade) (processedBatches : List String) :
    TradeCall × List String :=
  let lastFiveTrades := lastFiveOf trades
  if lastFiveTrades.length < 5 then (TradeCall.none, processedBatches)
  else
    let batchId := batchIdOf lastFiveTrades
    if batchId ∈ processedBatches then (TradeCall.none, processedBatches)
    else
      let netVol := netVolume lastFiveTrades
      let call :=
        if netVol ≠ 0 then
          if netVol > 0 then TradeCall.exec false netVol
          else TradeCall.exec true |netVol|
        else TradeCall.none
      (call, recordBatch processedBatches batchId)

/-- Environment of one `executeTrade` call: the in-flight flag, whether the
bonding-curve account resolves, the outcome of the SDK buy/sell call, and the
session's configured percentages. -/
structure ExecEnv where
  isProcessingTrade : Bool
  bondingCurve : Option Unit
  sdkResult : Except String Unit
  buyPercentage : ℚ
  sellPercentage : ℚ

def LAMPORTS_PER_SOL : ℚ := 1000000000

/-- How one `executeTrade` call ended. Because the body is wrapped in
try/catch, every outcome is an ordinary return value: an SDK failure becomes
`errorCaught`, a missing bonding-curve account becomes `curveMissing` (an
early logged return), and neither propagates to the caller. -/
inductive ExecResult where
  | skippedBusy
  | curveMissing
  | placed (isBuy : Bool) (lamports : ℤ)
  | errorCaught (e : String)
deriving DecidableEq, Repr

/-- The `executeTrade` function: guard on the in-flight flag, resolve the
bonding curve, size the order as `|amount × percentage|` converted to
lamports with `Math.floor`, then run the SDK call with any failure caught. -/
def executeTrade (env : ExecEnv) (isBuy : Bool) (amount : ℚ) : ExecResult :=
  if env.isProcessingTrade then ExecResult.skippedBusy
  else
    match env.bondingCurve with
    | none => ExecResult.curveMissing
    | some _ =>
      let percentage := if isBuy then env.buyPercentage else env.sellPercentage
      let tradeAmount := |amount * percentage|
      let lamports := ⌊tradeAmount * LAMPORTS_PER_SOL⌋
      match env.sdkResult with
      | Except.error e => ExecResult.errorCaught e
      | Except.ok _ => ExecResult.placed isBuy lamports

/-- One pass of `watchTradeFile` including the `executeTrade` call: the
middle component is the execution outcome when an execution was attempted.
The identity is recorded after the (total) `executeTrade` call returns,
regardless of its outcome. -/
def watchStepExec (trades : List WatchedTrade) (processedBatches : List String)
    (env : ExecEnv) : TradeCall × Option ExecResult × List String :=
  let result := watchStep trades processedBatches
  match result.1 with
  | TradeCall.none => (TradeCall.none, none, result.2)
  | TradeCall.exec isBuy amount =>
    (TradeCall.exec isBuy amount, some (executeTrade env isBuy amount), result.2)

lemma lastFiveOf_length_of_ge {trades : List WatchedTrade} (h : 5 ≤ trades.length) :
    (lastFiveOf trades).length = 5 := by
  simp [lastFiveOf]
  omega

lemma watchStep_lt_five {trades : List WatchedTrade} (seen : List String)
    (h : trades.length < 5) : watchStep trades seen = (TradeCall.none, seen) := by
  have hlen : (lastFiveOf trades).length < 5 := by
    simp [lastFiveOf]
    omega
  simp [watchStep, hlen]

lemma watchStep_already_seen {trades : List WatchedTrade} {seen : List String}
    (h5 : 5 ≤ trades.length) (hmem : batchIdOf (lastFiveOf trades) ∈ seen) :
    watchStep trades seen = (TradeCall.none, seen) := by
  have hlen := lastFiveOf_length_of_ge h5
  simp [watchStep, hlen, hmem]

lemma watchStep_fresh {trades : List WatchedTrade} {seen : List String}
    (h5 : 5 ≤ trades.length) (hmem : batchIdOf (lastFiveOf trades) ∉ seen) :
    watchStep trades seen =
      (if netVolume (lastFiveOf trades) ≠ 0 then
        if netVolume (lastFiveOf trades) > 0 then
          TradeCall.exec false (netVolume (lastFiveOf trades))
        else TradeCall.exec true |netVolume (lastFiveOf trades)|
      else TradeCall.none,
      recordBatch seen (batchIdOf (lastFiveOf trades))) := by
  have hlen := lastFiveOf_length_of_ge h5
  simp [watchStep, hlen, hmem]

lemma mem_recordBatch (seen : List String) (batchId : String) :
    batchId ∈ recordBatch seen batchId := by
  rw [recordBatch]
  split_ifs with h
  · rw [List.drop_append_of_le_length (by simp at h ⊢; try omega)]
    exact List.mem_append_right _ (List.mem_singleton.mpr rfl)
  · exact List.mem_append_right _ (List.mem_singleton.mpr rfl)

lemma recordBatch_length_le (seen : List String) (batchId : String) :
    (recordBatch seen batchId).length ≤ seen.length + 1 := by
  rw [recordBatch]
  split_ifs with h <;> simp <;> omega

lemma recordBatch_length_le_100 (seen : List String) (batchId : String) :
    (recordBatch seen batchId).length ≤ 100 := by
  rw [recordBatch]
  split_ifs with h <;> simp at h ⊢ <;> omega

lemma netVolume_foldl_acc (l : List WatchedTrade) :
    ∀ acc : ℚ,
      l.foldl
        (fun acc trade =>
          acc + (if trade.type = "SELL" then -trade.solAmount else trade.solAmount)) acc =
      acc +
        (l.map
          (fun trade =>
            if trade.type = "SELL" then -trade.solAmount else trade.solAmount)).sum := by
  induction l with
  | nil => intro acc; simp
  | cons t rest ih =>
    intro acc
    simp only [List.foldl_cons, List.map_cons, List.sum_cons, ih]
    ring

/-- On a window whose record types are all BUY or SELL, the code's running
sum agrees with the claim's formula (+solAmount for buys, −solAmount for
sells). -/
lemma netVolume_eq_claim {l : List WatchedTrade}
    (h : ∀ t ∈ l, t.type = "BUY" ∨ t.type = "SELL") :
    netVolume l = netVolumeClaim l := by
  rw [netVolume, netVolumeClaim, netVolume_foldl_acc, zero_add]
  congr 1
  apply List.map_congr_left
  intro t ht
  rcases h t ht with hb | hs
  · simp [hb]
  · simp [hs]

/-- C4: the batch aggregator only acts once at least 5 records exist — with
fewer it takes no action and records no identity. On a fresh window (identity
not yet seen) whose record types are BUY/SELL, the net volume it uses equals
the claim's sum of `+solAmount` for buys and `−solAmount` for sells; a zero
net volume records the identity and places no order; a positive net volume
issues a sell-side execution sized by the net volume; a negative one issues a
buy-side execution sized by its absolute value. -/
theorem batchAggregator_window :
    (∀ (trades : List WatchedTrade) (seen : List String),
      trades.length < 5 → watchStep trades seen = (TradeCall.none, seen)) ∧
    (∀ (trades : List WatchedTrade) (seen : List String),
      5 ≤ trades.length →
      batchIdOf (lastFiveOf trades) ∉ seen →
      (∀ t ∈ lastFiveOf trades, t.type = "BUY" ∨ t.type = "SELL") →
      netVolume (lastFiveOf trades) = netVolumeClaim (lastFiveOf trades) ∧
      (netVolume (lastFiveOf trades) = 0 →
        (watchStep trades seen).1 = TradeCall.none ∧
        batchIdOf (lastFiveOf trades) ∈ (watchStep trades seen).2) ∧
      (netVolume (lastFiveOf trades) > 0 →
        (watchStep trades seen).1 = TradeCall.exec false (netVolume (lastFiveOf trades))) ∧
      (netVolume (lastFiveOf trades) < 0 →
        (watchStep trades seen).1 =
          TradeCall.exec true |netVolume (lastFiveOf trades)|)) := by
  constructor
  · intro trades seen h
    exact watchStep_lt_five seen h
  · intro trades seen h5 hmem htypes
    refine ⟨netVolume_eq_claim htypes, ?_, ?_, ?_⟩
    · intro h0
      rw [watchStep_fresh h5 hmem]
      constructor
      · simp [h0]
      · exact mem_recordBatch seen _
    · intro hpos
      rw [watchStep_fresh h5 hmem]
      simp only [if_pos (ne_of_gt hpos), if_pos hpos]
    · intro hneg
      rw [watchStep_fresh h5 hmem]
      simp only [if_pos (ne_of_lt hneg), if_neg (not_lt_of_gt hneg)]

theorem batchAggregator_window_witness :
    netVolume
        (lastFiveOf
          [⟨"t1", "BUY", 1, "a", "h1"⟩, ⟨"t2", "SELL", 1/2, "a", "h2"⟩,
            ⟨"t3", "BUY", 1/2, "a", "h3"⟩, ⟨"t4", "SELL", 2, "a", "h4"⟩,
            ⟨"t5", "BUY", 1, "a", "h5"⟩]) =
      netVolumeClaim
        (lastFiveOf
          [⟨"t1", "BUY", 1, "a", "h1"⟩, ⟨"t2", "SELL", 1/2, "a", "h2"⟩,
            ⟨"t3", "BUY", 1/2, "a", "h3"⟩, ⟨"t4", "SELL", 2, "a", "h4"⟩,
            ⟨"t5", "BUY", 1, "a", "h5"⟩]) ∧
    (watchStep
        [⟨"t1", "BUY", 1, "a", "h1"⟩, ⟨"t2", "SELL", 1/2, "a", "h2"⟩,
          ⟨"t3", "BUY", 1/2, "a", "h3"⟩, ⟨"t4", "SELL", 2, "a", "h4"⟩,
          ⟨"t5", "BUY", 1, "a", "h5"⟩] []).1 = TradeCall.none := by
  have h :=
    batchAggregator_window.2
      [⟨"t1", "BUY", 1, "a", "h1"⟩, ⟨"t2", "SELL", 1/2, "a", "h2"⟩,
        ⟨"t3", "BUY", 1/2, "a", "h3"⟩, ⟨"t4", "SELL", 2, "a", "h4"⟩,
        ⟨"t5", "BUY", 1, "a", "h5"⟩] [] (by simp) (by simp)
      (by
        intro t ht
        simp [lastFiveOf] at ht
        rcases ht with h | h | h | h | h <;> subst h <;> simp)
  have h0 :
      netVolume
        (lastFiveOf
          [⟨"t1", "BUY", 1, "a", "h1"⟩, ⟨"t2", "SELL", 1/2, "a", "h2"⟩,
            ⟨"t3", "BUY", 1/2, "a", "h3"⟩, ⟨"t4", "SELL", 2, "a", "h4"⟩,
            ⟨"t5", "BUY", 1, "a", "h5"⟩]) = 0 := by
    simp [netVolume, lastFiveOf]
    norm_num
  exact ⟨h.1, (h.2.1 h0).1⟩

/-- C7: two windows whose boundary records carry identical first and last
timestamps and identical 8-character signature prefixes yield the same batch
identity; and a window whose identity is already in the seen set is a
no-op — no order is issued and the seen set is unchanged. -/
theorem batchIdentity_dedup :
    (∀ a b c d : WatchedTrade,
      a.timestamp = c.timestamp → b.timestamp = d.timestamp →
      a.txHash.take 8 = c.txHash.take 8 → b.txHash.take 8 = d.txHash.take 8 →
      mkBatchId a b = mkBatchId c d) ∧
    (∀ (trades : List WatchedTrade) (seen : List String),
      5 ≤ trades.length →
      batchIdOf (lastFiveOf trades) ∈ seen →
      watchStep trades seen = (TradeCall.none, seen)) := by
  constructor
  · intro a b c d h1 h2 h3 h4
    rw [mkBatchId, mkBatchId, h1, h2, h3, h4]
  · intro trades seen h5 hmem
    exact watchStep_already_seen h5 hmem

theorem batchIdentity_dedup_witness :
    mkBatchId ⟨"T0", "BUY", 1, "x", "hashAAAABBBB"⟩ ⟨"T4", "SELL", 2, "y", "hashCCCCDDDD"⟩ =
      mkBatchId ⟨"T0", "SELL", 7, "z", "hashAAAAZZZZ"⟩ ⟨"T4", "BUY", 9, "w", "hashCCCCYYYY"⟩ ∧
    watchStep
        [⟨"t1", "BUY", 1, "a", "h1"⟩, ⟨"t2", "SELL", 2, "a", "h2"⟩,
          ⟨"t3", "BUY", 3, "a", "h3"⟩, ⟨"t4", "SELL", 4, "a", "h4"⟩,
          ⟨"t5", "BUY", 5, "a", "h5"⟩]
        [batchIdOf
          (lastFiveOf
            [⟨"t1", "BUY", 1, "a", "h1"⟩, ⟨"t2", "SELL", 2, "a", "h2"⟩,
              ⟨"t3", "BUY", 3, "a", "h3"⟩, ⟨"t4", "SELL", 4, "a", "h4"⟩,
              ⟨"t5", "BUY", 5, "a", "h5"⟩])] =
      (TradeCall.none,
        [batchIdOf
          (lastFiveOf
            [⟨"t1", "BUY", 1, "a", "h1"⟩, ⟨"t2", "SELL", 2, "a", "h2"⟩,
              ⟨"t3", "BUY", 3, "a", "h3"⟩, ⟨"t4", "SELL", 4, "a", "h4"⟩,
              ⟨"t5", "BUY", 5, "a", "h5"⟩])]) := by
  constructor
  · exact batchIdentity_dedup.1 _ _ _ _ rfl rfl (by decide) (by decide)
  · exact batchIdentity_dedup.2 _ _ (by simp) (List.mem_singleton.mpr rfl)

/-- C8: after any batch-aggregation step, the seen set holds at most 100
identities. A step grows the set by at most one element; whenever the set
changed and the insertion pushed the size past 100, the result is exactly
the trailing (most recently inserted) 50 identities of the appended list. -/
theorem processedBatches_bounded :
    ∀ (trades : List WatchedTrade) (seen : List String),
      (watchStep trades seen).2.length ≤ seen.length + 1 ∧
      (seen.length ≤ 100 → (watchStep trades seen).2.length ≤ 100) ∧
      ((watchStep trades seen).2 ≠ seen → seen.length + 1 > 100 →
        (watchStep trades seen).2 =
          (seen ++ [batchIdOf (lastFiveOf trades)]).drop (seen.length + 1 - 50)) := by
  intro trades seen
  by_cases hlen : (lastFiveOf trades).length < 5
  · have heq : watchStep trades seen = (TradeCall.none, seen) := by
      simp [watchStep, hlen]
    rw [heq]
    exact ⟨Nat.le_succ _, fun h => h, fun hne _ => absurd rfl hne⟩
  · by_cases hmem : batchIdOf (lastFiveOf trades) ∈ seen
    · have heq : watchStep trades seen = (TradeCall.none, seen) := by
        simp [watchStep, hlen, hmem]
      rw [heq]
      exact ⟨Nat.le_succ _, fun h => h, fun hne _ => absurd rfl hne⟩
    · have h5 : 5 ≤ trades.length := by
        rw [lastFiveOf, List.length_drop] at hlen
        omega
      have h2 : (watchStep trades seen).2 = recordBatch seen (batchIdOf (lastFiveOf trades)) := by
        rw [watchStep_fresh h5 hmem]
      rw [h2]
      refine ⟨recordBatch_length_le seen _, fun _ => recordBatch_length_le_100 seen _, ?_⟩
      intro _ hover
      have hcond : (seen ++ [batchIdOf (lastFiveOf trades)]).length > 100 := by
        simp only [List.length_append, List.length_singleton]
        omega
      simp only [recordBatch]
      rw [if_pos hcond]
      simp only [List.length_append, List.length_singleton]

theorem processedBatches_bounded_witness :
    (watchStep [] ["id1"]).2.length ≤ 100 :=
  (processedBatches_bounded [] ["id1"]).2.1 (by simp)

/-- C10: for a fresh window with nonzero net volume, when the counter-order
fails — the bonding-curve account is absent or the SDK buy/sell call fails —
the failure is absorbed inside `executeTrade` (the step still returns an
ordinary caught outcome, `curveMissing` or `errorCaught`), the window's batch
identity is nonetheless added to the seen set, and presenting the same window
again is a no-op: no second execution is attempted. -/
theorem executeTrade_failure_contained :
    ∀ (trades : List WatchedTrade) (seen : List String) (env : ExecEnv),
      5 ≤ trades.length →
      batchIdOf (lastFiveOf trades) ∉ seen →
      netVolume (lastFiveOf trades) ≠ 0 →
      env.isProcessingTrade = false →
      (env.bondingCurve = none ∨ ∃ e, env.sdkResult = Except.error e) →
      (∃ r, (watchStepExec trades seen env).2.1 = some r ∧
        (r = ExecResult.curveMissing ∨ ∃ e, r = ExecResult.errorCaught e)) ∧
      batchIdOf (lastFiveOf trades) ∈ (watchStepExec trades seen env).2.2 ∧
      watchStep trades (watchStepExec trades seen env).2.2 =
        (TradeCall.none, (watchStepExec trades seen env).2.2) := by
  intro trades seen env h5 hmem hnv hbusy hfail
  have hexec : ∀ (isBuy : Bool) (amount : ℚ),
      executeTrade env isBuy amount = ExecResult.curveMissing ∨
        ∃ e, executeTrade env isBuy amount = ExecResult.errorCaught e := by
    intro isBuy amount
    rcases hcurve : env.bondingCurve with _ | u
    · left
      simp [executeTrade, hbusy, hcurve]
    · rcases hfail with hnone | ⟨e, he⟩
      · exact absurd hcurve (hnone ▸ by simp)
      · right
        exact ⟨e, by simp [executeTrade, hbusy, hcurve, he]⟩
  have hw := watchStep_fresh h5 hmem
  rcases lt_or_gt_of_ne hnv with hneg | hpos
  · have hcall : watchStep trades seen =
        (TradeCall.exec true |netVolume (lastFiveOf trades)|,
          recordBatch seen (batchIdOf (lastFiveOf trades))) := by
      rw [hw, if_pos hnv, if_neg (not_lt_of_gt hneg)]
    have hx : watchStepExec trades seen env =
        (TradeCall.exec true |netVolume (lastFiveOf trades)|,
          some (executeTrade env true |netVolume (lastFiveOf trades)|),
          recordBatch seen (batchIdOf (lastFiveOf trades))) := by
      simp only [watchStepExec, hcall]
    rw [hx]
    refine ⟨⟨executeTrade env true |netVolume (lastFiveOf trades)|, rfl, hexec true _⟩, ?_, ?_⟩
    · exact mem_recordBatch seen _
    · exact watchStep_already_seen h5 (mem_recordBatch seen _)
  · have hcall : watchStep trades seen =
        (TradeCall.exec false (netVolume (lastFiveOf trades)),
          recordBatch seen (batchIdOf (lastFiveOf trades))) := by
      rw [hw, if_pos hnv, if_pos hpos]
    have hx : watchStepExec trades seen env =
        (TradeCall.exec false (netVolume (lastFiveOf trades)),
          some (executeTrade env false (netVolume (lastFiveOf trades))),
          recordBatch seen (batchIdOf (lastFiveOf trades))) := by
      simp only [watchStepExec, hcall]
    rw [hx]
    refine ⟨⟨executeTrade env false (netVolume (lastFiveOf trades)), rfl, hexec false _⟩, ?_, ?_⟩
    · exact mem_recordBatch seen _
    · exact watchStep_already_seen h5 (mem_recordBatch seen _)

theorem executeTrade_failure_contained_witness :
    batchIdOf
        (lastFiveOf
          [⟨"t1", "BUY", 1, "a", "h1"⟩, ⟨"t2", "BUY", 1, "a", "h2"⟩,
            ⟨"t3", "BUY", 1, "a", "h3"⟩, ⟨"t4", "BUY", 1, "a", "h4"⟩,
            ⟨"t5", "BUY", 1, "a", "h5"⟩]) ∈
      (watchStepExec
        [⟨"t1", "BUY", 1, "a", "h1"⟩, ⟨"t2", "BUY", 1, "a", "h2"⟩,
          ⟨"t3", "BUY", 1, "a", "h3"⟩, ⟨"t4", "BUY", 1, "a", "h4"⟩,
          ⟨"t5", "BUY", 1, "a", "h5"⟩] []
        ⟨false, none, Except.ok Unit.unit, 1/2, 1/2⟩).2.2 ∧
    watchStep
        [⟨"t1", "BUY", 1, "a", "h1"⟩, ⟨"t2", "BUY", 1, "a", "h2"⟩,
          ⟨"t3", "BUY", 1, "a", "h3"⟩, ⟨"t4", "BUY", 1, "a", "h4"⟩,
          ⟨"t5", "BUY", 1, "a", "h5"⟩]
        (watchStepExec
          [⟨"t1", "BUY", 1, "a", "h1"⟩, ⟨"t2", "BUY", 1, "a", "h2"⟩,
            ⟨"t3", "BUY", 1, "a", "h3"⟩, ⟨"t4", "BUY", 1, "a", "h4"⟩,
            ⟨"t5", "BUY", 1, "a", "h5"⟩] []
          ⟨false, none, Except.ok Unit.unit, 1/2, 1/2⟩).2.2 =
      (TradeCall.none,
        (watchStepExec
          [⟨"t1", "BUY", 1, "a", "h1"⟩, ⟨"t2", "BUY", 1, "a", "h2"⟩,
            ⟨"t3", "BUY", 1, "a", "h3"⟩, ⟨"t4", "BUY", 1, "a", "h4"⟩,
            ⟨"t5", "BUY", 1, "a", "h5"⟩] []
          ⟨false, none, Except.ok Unit.unit, 1/2, 1/2⟩).2.2) := by
  have h :=
    executeTrade_failure_contained
      [⟨"t1", "BUY", 1, "a", "h1"⟩, ⟨"t2", "BUY", 1, "a", "h2"⟩,
        ⟨"t3", "BUY", 1, "a", "h3"⟩, ⟨"t4", "BUY", 1, "a", "h4"⟩,
        ⟨"t5", "BUY", 1, "a", "h5"⟩] []
      ⟨false, none, Except.ok Unit.unit, 1/2, 1/2⟩ (by simp) (by simp)
      (by simp [netVolume, lastFiveOf]; try norm_num) rfl (Or.inl rfl)
  exact ⟨h.2.1, h.2.2⟩

/-! ### CSV trade ledger (`writeTradestoCSV`, order watcher) -/

/-- A trade record as persisted to the ledger: all five columns are strings,
modelled as character lists so that joining and splitting on separators can
be reasoned about. -/
structure TradeInfo where
  timestamp : List Char
  type : List Char
  solAmount : List Char
  tokenAmount : List Char
  txHash : List Char
deriving DecidableEq, Repr

/-- The five columns of a record, in file order. -/
def tradeFields (t : TradeInfo) : List (List Char) :=
  [t.timestamp, t.type, t.solAmount, t.tokenAmount, t.txHash]

/-- The fixed header row `headers.join(",")`. -/
def headerLine : List Char :=
  "TIMESTAMP,TYPE,SOL_AMOUNT,TOKEN_AMOUNT,TX_HASH".data

/-- One record serialized as a CSV line: the five fields joined with commas. -/
def serializeRecord (t : TradeInfo) : List Char :=
  List.intercalate [','] (tradeFields t)

/-- A whole ledger file: the header line followed by one line per record,
joined with newlines. -/
def serializeFile (trades : List TradeInfo) : List Char :=
  List.intercalate ['\n'] (headerLine :: trades.map serializeRecord)

/-- Parsing one line back into a record via
`const [timestamp, type, solAmount, tokenAmount, txHash] = line.split(',')`;
a missing component (JS `undefined`) is modelled as the empty string. -/
def parseRecordLine (line : List Char) : TradeInfo :=
  let fields := line.splitOn ','
  ⟨fields.getD 0 [], fields.getD 1 [], fields.getD 2 [], fields.getD 3 [], fields.getD 4 []⟩

/-- `line.trim() === ''` holds exactly when the line is all whitespace. -/
def isBlankLine (line : List Char) : Bool :=
  line.all (fun c => c.isWhitespace)

/-- Reading the ledger back: split on newlines, drop the header (`shift`),
drop blank lines, and parse each remaining line. -/
def readLedger (content : List Char) : List TradeInfo :=
  let lines := content.splitOn '\n'
  (lines.tail.filter (fun line => !isBlankLine line)).map parseRecordLine

/-- `writeTradestoCSV`: on the initial fetch the file is written from the
given trades alone; afterwards the existing file (if any) is read back,
parsed, and rewritten as header + existing records + new records. -/
def writeTradestoCSV (isInitialFetch : Bool) (existingContent : Option (List Char))
    (trades : List TradeInfo) : List Char :=
  if isInitialFetch then serializeFile trades
  else
    let existingTrades :=
      match existingContent with
      | none => []
      | some content => readLedger content
    serializeFile (existingTrades ++ trades)

/-- A field that round-trips through the CSV encoding: it contains neither
the column separator nor the line separator. -/
def cleanField (f : List Char) : Prop := ',' ∉ f ∧ '\n' ∉ f

/-- A record all of whose fields are clean. -/
def cleanRecord (t : TradeInfo) : Prop :=
  cleanField t.timestamp ∧ cleanField t.type ∧ cleanField t.solAmount ∧
    cleanField t.tokenAmount ∧ cleanField t.txHash

lemma serializeRecord_eq (t : TradeInfo) :
    serializeRecord t =
      t.timestamp ++ ',' :: (t.type ++ ',' :: (t.solAmount ++ ',' ::
        (t.tokenAmount ++ ',' :: t.txHash))) := by
  simp [serializeRecord, tradeFields, List.intercalate, List.intersperse]

lemma comma_mem_serializeRecord (t : TradeInfo) : ',' ∈ serializeRecord t := by
  rw [serializeRecord_eq]
  simp

lemma not_blank_serializeRecord (t : TradeInfo) :
    isBlankLine (serializeRecord t) = false := by
  rw [isBlankLine, List.all_eq_false]
  exact ⟨',', comma_mem_serializeRecord t, by decide⟩

lemma newline_not_mem_serializeRecord {t : TradeInfo} (h : cleanRecord t) :
    '\n' ∉ serializeRecord t := by
  rw [serializeRecord_eq]
  intro hmem
  simp only [List.mem_append, List.mem_cons] at hmem
  rcases hmem with h1 | h1 | h1 | h1 | h1 | h1 | h1 | h1 | h1
  · exact h.1.2 h1
  · exact absurd h1 (by decide)
  · exact h.2.1.2 h1
  · exact absurd h1 (by decide)
  · exact h.2.2.1.2 h1
  · exact absurd h1 (by decide)
  · exact h.2.2.2.1.2 h1
  · exact absurd h1 (by decide)
  · exact h.2.2.2.2.2 h1

lemma parse_serializeRecord {t : TradeInfo} (h : cleanRecord t) :
    parseRecordLine (serializeRecord t) = t := by
  have hsplit : (serializeRecord t).splitOn ',' = tradeFields t := by
    rw [serializeRecord]
    refine List.splitOn_intercalate (tradeFields t) ',' ?_ (by simp [tradeFields])
    intro l hl
    simp only [tradeFields, List.mem_cons, List.not_mem_nil, or_false] at hl
    rcases hl with rfl | rfl | rfl | rfl | rfl
    exacts [h.1.1, h.2.1.1, h.2.2.1.1, h.2.2.2.1.1, h.2.2.2.2.1]
  simp only [parseRecordLine, hsplit, tradeFields]
  rfl

lemma readLedger_serializeFile {trades : List TradeInfo}
    (h : ∀ t ∈ trades, cleanRecord t) :
    readLedger (serializeFile trades) = trades := by
  have hlines :
      (serializeFile trades).splitOn '\n' = headerLine :: trades.map serializeRecord := by
    rw [serializeFile]
    refine List.splitOn_intercalate (headerLine :: trades.map serializeRecord) '\n' ?_
      (by simp)
    intro l hl
    simp only [List.mem_cons] at hl
    rcases hl with rfl | hl
    · decide
    · obtain ⟨t, ht, rfl⟩ := List.mem_map.mp hl
      exact newline_not_mem_serializeRecord (h t ht)
  have hfilter :
      (trades.map serializeRecord).filter (fun line => !isBlankLine line) =
        trades.map serializeRecord := by
    refine List.filter_eq_self.mpr ?_
    intro l hl
    obtain ⟨t, ht, rfl⟩ := List.mem_map.mp hl
    simp [not_blank_serializeRecord t]
  rw [readLedger]
  simp only [hlines, List.tail_cons, hfilter, List.map_map]
  rw [List.map_congr_left (fun t ht => ?_), List.map_id]
  exact parse_serializeRecord (h t ht)

/-- C9: an append-mode ledger write reads the existing file, drops the
header, parses the existing records, and rewrites the file as the header
followed by the existing records and then the new ones. Consequently, for a
ledger previously produced by this writer from records whose fields contain
no separator characters, every previously written record is preserved
unchanged and in its original order, with the new records appended after
them. -/
theorem ledger_append_preserves :
    ∀ (oldTrades newTrades : List TradeInfo),
      (∀ t ∈ oldTrades, cleanRecord t) →
      writeTradestoCSV false (some (serializeFile oldTrades)) newTrades =
        serializeFile (oldTrades ++ newTrades) := by
  intro oldTrades newTrades h
  rw [writeTradestoCSV]
  simp only [Bool.false_eq_true, if_false]
  rw [readLedger_serializeFile h]

theorem ledger_append_preserves_witness :
    writeTradestoCSV false
        (some (serializeFile
          [⟨"2024-01-01T00:00:00.000Z".data, "BUY".data, "0.5".data,
            "100".data, "sig1".data⟩]))
        [⟨"2024-01-02T00:00:00.000Z".data, "SELL".data, "1.5".data,
          "200".data, "sig2".data⟩] =
      serializeFile
        ([⟨"2024-01-01T00:00:00.000Z".data, "BUY".data, "0.5".data,
            "100".data, "sig1".data⟩] ++
          [⟨"2024-01-02T00:00:00.000Z".data, "SELL".data, "1.5".data,
            "200".data, "sig2".data⟩]) := by
  refine ledger_append_preserves _ _ ?_
  intro t ht
  simp only [List.mem_singleton] at ht
  subst ht
  exact ⟨⟨by decide, by decide⟩, ⟨by decide, by decide⟩, ⟨by decide, by decide⟩,
    ⟨by decide, by decide⟩, ⟨by decide, by decide⟩⟩
